import Mathlib

/-!
Shallow embedding of the quantitative-trading-backtester core
(`src/backtester.py`, `src/strategy.py`, `src/performance.py`) over exact
rationals, together with theorems settling the frozen claims.

Modelling conventions:
* a pandas Series of floats is a `List ℚ`; a possibly-NaN Series is a
  `List (Option ℚ)` with `none` for NaN;
* a DataFrame handed to the backtester is its row list `List (Int × ℚ)`
  (date, value) plus a flag recording whether the required column exists;
* pandas comparisons against NaN are `false`, which the `Option`-aware
  comparison helpers reproduce;
* `float` division by zero (which would give `inf` in the source) cannot be
  reproduced over `ℚ` (where `x / 0 = 0`); no claim below depends on a
  division by zero.
-/

namespace QTB

/-- A price DataFrame: rows of (date, adjusted close), and whether the
`Adj Close` column is present. -/
structure PriceDF where
  rows : List (Int × ℚ)
  hasAdjClose : Bool
deriving DecidableEq

/-- A signal DataFrame: rows of (date, signal value), and whether the
`signal` column is present. -/
structure SignalDF where
  rows : List (Int × ℚ)
  hasSignal : Bool
deriving DecidableEq

/-- The dates (index) of a row list. -/
def dfDates (rows : List (Int × ℚ)) : List Int := rows.map Prod.fst

/-- `data.index.intersection(signals.index)` followed by `data.loc[common]`:
the data rows whose date also occurs in the signal rows.  Both indices are
date-sorted in every use (spec §3), so pandas' intersection preserves the
data order, as `filter` does here. -/
def commonRows (drows srows : List (Int × ℚ)) : List (Int × ℚ) :=
  drows.filter (fun r => (dfDates srows).contains r.1)

/-- Aligned `Adj Close` column (`data.loc[common]['Adj Close']`). -/
def alignedPrices (drows srows : List (Int × ℚ)) : List ℚ :=
  (commonRows drows srows).map Prod.snd

/-- Aligned `signal` column (`signals.loc[common]['signal']`): for each
common date, the signal row with that date. -/
def alignedSignals (drows srows : List (Int × ℚ)) : List ℚ :=
  (commonRows drows srows).map (fun r => (List.lookup r.1 srows).getD 0)

/-- `Series.pct_change()`: undefined at index 0, else `p t / p (t-1) - 1`. -/
def pctChange (ps : List ℚ) : List (Option ℚ) :=
  (List.range ps.length).map
    (fun t => if t = 0 then none else some (ps.getD t 0 / ps.getD (t - 1) 0 - 1))

/-- `Series.fillna(0.0)` on a possibly-NaN series. -/
def fillna0 (xs : List (Option ℚ)) : List ℚ := xs.map (fun o => o.getD 0)

/-- `Series.shift(1).fillna(0.0)` on a NaN-free series: index 0 becomes 0,
index t becomes the value at t-1. -/
def shiftFill (xs : List ℚ) : List ℚ :=
  match xs with
  | [] => []
  | _ :: _ => 0 :: xs.dropLast

/-- The position mapping of backtester.py line 49:
`1.0 if x > 0 else (-1.0 if x < 0 and allow_shorting else 0.0)`. -/
def posOf (allow_shorting : Bool) (x : ℚ) : ℚ :=
  if x > 0 then 1 else if x < 0 ∧ allow_shorting then -1 else 0

/-- `Series.cumprod()`: running products, first element kept. -/
def cumprod (xs : List ℚ) : List ℚ :=
  (xs.scanl (fun acc x => acc * x) 1).tail

/-- The portfolio DataFrame produced by `run_backtest`. -/
structure Portfolio where
  dates : List Int
  adjClose : List ℚ
  signal : List ℚ
  position : List ℚ
  market_return : List ℚ
  strategy_return : List ℚ
  cumulative_market : List ℚ
  cumulative_strategy : List ℚ
  equity_curve : List ℚ
deriving DecidableEq

/-- The portfolio columns as built by backtester.py lines 38-60 (before the
warm-up truncation of lines 62-68). -/
def rawPortfolio (d : PriceDF) (s : SignalDF) (cap : ℚ) (b : Bool) : Portfolio :=
  let common := commonRows d.rows s.rows
  let prices := alignedPrices d.rows s.rows
  let sigs := alignedSignals d.rows s.rows
  let mr := fillna0 (pctChange prices)
  let pos := (shiftFill sigs).map (posOf b)
  let sr := List.zipWith (fun p r => p * r) pos mr
  { dates := common.map Prod.fst
    adjClose := prices
    signal := sigs
    position := pos
    market_return := mr
    strategy_return := sr
    cumulative_market := cumprod (mr.map (fun r => 1 + r))
    cumulative_strategy := cumprod (sr.map (fun r => 1 + r))
    equity_curve := (cumprod (sr.map (fun r => 1 + r))).map (fun v => cap * v) }

/-- `portfolio.loc[first_valid_index:]` modelled as dropping the rows before
the first valid index from every column. -/
def truncP (P : Portfolio) (i : ℕ) : Portfolio :=
  { dates := P.dates.drop i
    adjClose := P.adjClose.drop i
    signal := P.signal.drop i
    position := P.position.drop i
    market_return := P.market_return.drop i
    strategy_return := P.strategy_return.drop i
    cumulative_market := P.cumulative_market.drop i
    cumulative_strategy := P.cumulative_strategy.drop i
    equity_curve := P.equity_curve.drop i }

/-- `run_backtest` of backtester.py.  `None` becomes `none`.  The
`strategy_return` column is NaN-free by construction (its inputs are the
fillna'd market return and the always-defined position; line 55's
`fillna(0.0)` is a no-op), so `first_valid_index` is index 0 whenever the
column is non-empty, and `None` otherwise. -/
def run_backtest (d : PriceDF) (s : SignalDF) (cap : ℚ) (b : Bool) : Option Portfolio :=
  if d.rows = [] ∨ s.rows = [] then none
  else if d.hasAdjClose = false then none
  else if s.hasSignal = false then none
  else if commonRows d.rows s.rows = [] then none
  else
    match (if (rawPortfolio d s cap b).strategy_return = [] then none
           else some 0 : Option ℕ) with
    | none => none
    | some i =>
      if (truncP (rawPortfolio d s cap b) i).dates = [] then none
      else some (truncP (rawPortfolio d s cap b) i)

theorem truncP_zero (P : Portfolio) : truncP P 0 = P := by
  simp [truncP]

theorem commonRows_length_pos (d : PriceDF) (s : SignalDF)
    (h : commonRows d.rows s.rows ≠ []) :
    0 < (commonRows d.rows s.rows).length :=
  List.length_pos.mpr h

theorem alignedPrices_length (drows srows : List (Int × ℚ)) :
    (alignedPrices drows srows).length = (commonRows drows srows).length := by
  simp [alignedPrices]

theorem alignedSignals_length (drows srows : List (Int × ℚ)) :
    (alignedSignals drows srows).length = (commonRows drows srows).length := by
  simp [alignedSignals]

theorem pctChange_length (ps : List ℚ) : (pctChange ps).length = ps.length := by
  simp [pctChange]

theorem fillna0_length (xs : List (Option ℚ)) : (fillna0 xs).length = xs.length := by
  simp [fillna0]

theorem shiftFill_length (xs : List ℚ) : (shiftFill xs).length = xs.length := by
  cases xs with
  | nil => rfl
  | cons a l => simp [shiftFill]

theorem rawPortfolio_strategy_return_length (d : PriceDF) (s : SignalDF)
    (cap : ℚ) (b : Bool) :
    (rawPortfolio d s cap b).strategy_return.length
      = (commonRows d.rows s.rows).length := by
  simp [rawPortfolio, shiftFill_length, alignedSignals_length, fillna0_length,
    pctChange_length, alignedPrices_length]

/-- Characterization of a successful run: all validation checks passed and
the returned portfolio is the raw (untruncated) one — in this model the
strategy-return column is NaN-free, so the truncation of lines 62-68 keeps
every row. -/
theorem run_backtest_some_iff (d : PriceDF) (s : SignalDF) (cap : ℚ) (b : Bool)
    (P : Portfolio) :
    run_backtest d s cap b = some P ↔
      (d.rows ≠ [] ∧ s.rows ≠ [] ∧ d.hasAdjClose = true ∧ s.hasSignal = true ∧
        commonRows d.rows s.rows ≠ [] ∧ P = rawPortfolio d s cap b) := by
  unfold run_backtest
  split_ifs with h1 h2 h3 h4 h5
  · constructor
    · intro h; simp at h
    · rintro ⟨hd, hs, -⟩
      rcases h1 with h | h
      · exact absurd h hd
      · exact absurd h hs
  · constructor
    · intro h; simp at h
    · rintro ⟨-, -, hA, -⟩; rw [h2] at hA; simp at hA
  · constructor
    · intro h; simp at h
    · rintro ⟨-, -, -, hS, -⟩; rw [h3] at hS; simp at hS
  · constructor
    · intro h; simp at h
    · rintro ⟨-, -, -, -, hc, -⟩; exact absurd h4 hc
  · constructor
    · intro h; simp at h
    · rintro ⟨-, -, -, -, hc, -⟩
      apply hc
      have hl := rawPortfolio_strategy_return_length d s cap b
      rw [h5] at hl
      exact List.eq_nil_of_length_eq_zero (by simpa using hl.symm)
  · push_neg at h1
    obtain ⟨hd, hs⟩ := h1
    have h2' : d.hasAdjClose = true := by
      cases hh : d.hasAdjClose
      · exact absurd hh h2
      · rfl
    have h3' : s.hasSignal = true := by
      cases hh : s.hasSignal
      · exact absurd hh h3
      · rfl
    have hdates : (rawPortfolio d s cap b).dates ≠ [] := by
      intro hc
      apply h4
      have hmap : (rawPortfolio d s cap b).dates
          = (commonRows d.rows s.rows).map Prod.fst := rfl
      rw [hmap] at hc
      exact List.map_eq_nil_iff.mp hc
    simp only [truncP_zero]
    rw [if_neg hdates]
    constructor
    · intro h; exact ⟨hd, hs, h2', h3', h4, (Option.some_injective _ h).symm⟩
    · rintro ⟨-, -, -, -, -, hP⟩; rw [hP]

theorem shiftFill_eq_take (xs : List ℚ) : shiftFill xs = (0 :: xs).take xs.length := by
  cases xs with
  | nil => rfl
  | cons a l =>
    simp only [shiftFill, List.length_cons, List.take_succ_cons]
    rw [List.dropLast_eq_take]
    simp

theorem shiftFill_getD (xs : List ℚ) (t : ℕ) (ht : t < xs.length) :
    (shiftFill xs).getD t 0 = if t = 0 then 0 else xs.getD (t - 1) 0 := by
  rw [shiftFill_eq_take]
  rw [List.getD_eq_getElem?_getD, List.getElem?_take, if_pos ht]
  cases t with
  | zero => simp
  | succ k =>
    simp only [List.getElem?_cons_succ, Nat.succ_ne_zero, if_false, Nat.succ_sub_one]
    rw [List.getD_eq_getElem?_getD]

theorem map_getD_of_lt (f : ℚ → ℚ) (xs : List ℚ) (t : ℕ) (ht : t < xs.length) :
    (xs.map f).getD t 0 = f (xs.getD t 0) := by
  have h1 : t < (xs.map f).length := by simpa using ht
  rw [List.getD_eq_getElem _ _ h1, List.getD_eq_getElem _ _ ht, List.getElem_map]

theorem commonRows_congr (drows srows srows2 : List (Int × ℚ))
    (h : dfDates srows2 = dfDates srows) :
    commonRows drows srows2 = commonRows drows srows := by
  unfold commonRows
  rw [h]

theorem take_agree_getD (xs ys : List ℚ) (t i : ℕ) (hi : i < t)
    (h : xs.take t = ys.take t) : xs.getD i 0 = ys.getD i 0 := by
  have h1 : xs[i]? = (xs.take t)[i]? := by rw [List.getElem?_take, if_pos hi]
  have h2 : ys[i]? = (ys.take t)[i]? := by rw [List.getElem?_take, if_pos hi]
  rw [List.getD_eq_getElem?_getD, List.getD_eq_getElem?_getD, h1, h2, h]

/-- C1: the position applied at index t of a successful run is exactly
`posOf` of the aligned signal at index t-1 (0 for the first index), and two
runs over signal inputs with the same dates whose aligned signals agree at
all indices ≤ t-1 produce the same position at index t. -/
theorem C1_position_lag (d : PriceDF) (s s2 : SignalDF) (cap : ℚ) (b : Bool)
    (P P2 : Portfolio) (t : ℕ)
    (h : run_backtest d s cap b = some P)
    (h2 : run_backtest d s2 cap b = some P2)
    (hdates : dfDates s2.rows = dfDates s.rows)
    (hagree : (alignedSignals d.rows s2.rows).take t
      = (alignedSignals d.rows s.rows).take t)
    (ht : t < P.position.length) :
    P.position.getD t 0
        = posOf b (if t = 0 then 0 else (alignedSignals d.rows s.rows).getD (t - 1) 0)
      ∧ P2.position.getD t 0 = P.position.getD t 0 := by
  obtain ⟨-, -, -, -, -, hP⟩ := (run_backtest_some_iff d s cap b P).mp h
  obtain ⟨-, -, -, -, -, hP2⟩ := (run_backtest_some_iff d s2 cap b P2).mp h2
  have hposP : P.position = (shiftFill (alignedSignals d.rows s.rows)).map (posOf b) := by
    rw [hP]; rfl
  have hposP2 : P2.position
      = (shiftFill (alignedSignals d.rows s2.rows)).map (posOf b) := by
    rw [hP2]; rfl
  have htlen : t < (alignedSignals d.rows s.rows).length := by
    rw [hposP] at ht
    simpa [shiftFill_length] using ht
  have htlen2 : t < (alignedSignals d.rows s2.rows).length := by
    have hcr := commonRows_congr d.rows s.rows s2.rows hdates
    have : (alignedSignals d.rows s2.rows).length
        = (alignedSignals d.rows s.rows).length := by
      rw [alignedSignals_length, alignedSignals_length, hcr]
    omega
  have key : P.position.getD t 0
      = posOf b (if t = 0 then 0 else (alignedSignals d.rows s.rows).getD (t - 1) 0) := by
    rw [hposP, map_getD_of_lt _ _ _ (by rwa [shiftFill_length]),
      shiftFill_getD _ _ htlen]
  refine ⟨key, ?_⟩
  have key2 : P2.position.getD t 0
      = posOf b (if t = 0 then 0 else (alignedSignals d.rows s2.rows).getD (t - 1) 0) := by
    rw [hposP2, map_getD_of_lt _ _ _ (by rwa [shiftFill_length]),
      shiftFill_getD _ _ htlen2]
  rw [key, key2]
  by_cases h0 : t = 0
  · simp [h0]
  · simp only [if_neg h0]
    rw [take_agree_getD _ _ t (t - 1) (by omega) hagree]

/-- Witness for C1 at a concrete input: two signal inputs differing only at
the last date give the same position there, and the position equals the
mapped previous-day signal. -/
theorem C1_witness :
    (rawPortfolio ⟨[(0, 10), (1, 11), (2, 12)], true⟩
          ⟨[(0, 1), (1, 0), (2, 5)], true⟩ 100 true).position.getD 2 0
        = posOf true (if 2 = 0 then 0 else
            (alignedSignals [(0, 10), (1, 11), (2, 12)]
              [(0, 1), (1, 0), (2, 5)]).getD (2 - 1) 0)
      ∧ (rawPortfolio ⟨[(0, 10), (1, 11), (2, 12)], true⟩
          ⟨[(0, 1), (1, 0), (2, -7)], true⟩ 100 true).position.getD 2 0
        = (rawPortfolio ⟨[(0, 10), (1, 11), (2, 12)], true⟩
          ⟨[(0, 1), (1, 0), (2, 5)], true⟩ 100 true).position.getD 2 0 :=
  C1_position_lag ⟨[(0, 10), (1, 11), (2, 12)], true⟩
    ⟨[(0, 1), (1, 0), (2, 5)], true⟩ ⟨[(0, 1), (1, 0), (2, -7)], true⟩ 100 true
    _ _ 2
    ((run_backtest_some_iff _ _ _ _ _).mpr
      ⟨by decide, by decide, rfl, rfl, by decide, rfl⟩)
    ((run_backtest_some_iff _ _ _ _ _).mpr
      ⟨by decide, by decide, rfl, rfl, by decide, rfl⟩)
    (by decide) (by decide) (by decide)

/-- C2: the simulator returns the error value (`none`) whenever a
precondition is violated: empty input, missing required column, empty date
intersection, or an empty strategy-return column after processing (the "no
valid strategy returns" branch of lines 62-68). -/
theorem C2_validation_errors (d : PriceDF) (s : SignalDF) (cap : ℚ) (b : Bool)
    (h : d.rows = [] ∨ s.rows = [] ∨ d.hasAdjClose = false ∨ s.hasSignal = false ∨
      commonRows d.rows s.rows = [] ∨ (rawPortfolio d s cap b).strategy_return = []) :
    run_backtest d s cap b = none := by
  cases hopt : run_backtest d s cap b with
  | none => rfl
  | some P =>
    exfalso
    obtain ⟨hd, hs, hA, hS, hc, -⟩ := (run_backtest_some_iff d s cap b P).mp hopt
    rcases h with h | h | h | h | h | h
    · exact hd h
    · exact hs h
    · rw [hA] at h; simp at h
    · rw [hS] at h; simp at h
    · exact hc h
    · apply hc
      have hl := rawPortfolio_strategy_return_length d s cap b
      rw [h] at hl
      exact List.eq_nil_of_length_eq_zero (by simpa using hl.symm)

/-- Witness for C2: an empty price input makes the simulator return the
error value. -/
theorem C2_witness :
    run_backtest ⟨[], true⟩ ⟨[(0, 1)], true⟩ 100 false = none :=
  C2_validation_errors ⟨[], true⟩ ⟨[(0, 1)], true⟩ 100 false (Or.inl rfl)

theorem head?_map_q (f : ℚ → ℚ) (xs : List ℚ) :
    (xs.map f).head? = xs.head?.map f := by
  cases xs <;> rfl

theorem zipWith_head? (f : ℚ → ℚ → ℚ) (xs ys : List ℚ) :
    (List.zipWith f xs ys).head?
      = match xs.head?, ys.head? with
        | some x, some y => some (f x y)
        | _, _ => none := by
  cases xs <;> cases ys <;> rfl

theorem shiftFill_head? (xs : List ℚ) (hne : xs ≠ []) :
    (shiftFill xs).head? = some 0 := by
  cases xs with
  | nil => exact absurd rfl hne
  | cons a l => rfl

theorem fillna0_pctChange_head? (ps : List ℚ) (hne : ps ≠ []) :
    (fillna0 (pctChange ps)).head? = some 0 := by
  obtain ⟨a, l, rfl⟩ := List.exists_cons_of_ne_nil hne
  simp only [fillna0, pctChange, List.length_cons, List.range_succ_eq_map,
    List.map_cons, List.head?_cons]
  rfl

theorem cumprod_head? (xs : List ℚ) :
    (cumprod xs).head? = xs.head?.map (fun x => 1 * x) := by
  cases xs with
  | nil => rfl
  | cons a l =>
    unfold cumprod
    rw [List.scanl_cons]
    cases l <;> rfl

/-- C9: on every successfully returned portfolio, the first row has
market return 0, position 0, strategy return 0, and equity exactly the
initial capital, and the warm-up truncation keeps every aligned date
(the dates column is the full common index). -/
theorem C9_first_row (d : PriceDF) (s : SignalDF) (cap : ℚ) (b : Bool)
    (P : Portfolio) (h : run_backtest d s cap b = some P) :
    P.market_return.head? = some 0 ∧ P.position.head? = some 0 ∧
      P.strategy_return.head? = some 0 ∧ P.equity_curve.head? = some cap ∧
      P.dates = (commonRows d.rows s.rows).map Prod.fst := by
  obtain ⟨-, -, -, -, hc, hP⟩ := (run_backtest_some_iff d s cap b P).mp h
  subst hP
  have hprices : alignedPrices d.rows s.rows ≠ [] := by
    intro hx; exact hc (List.map_eq_nil_iff.mp hx)
  have hsigs : alignedSignals d.rows s.rows ≠ [] := by
    intro hx; exact hc (List.map_eq_nil_iff.mp hx)
  have hmr0 : (fillna0 (pctChange (alignedPrices d.rows s.rows))).head? = some 0 :=
    fillna0_pctChange_head? _ hprices
  have hpos0 : ((shiftFill (alignedSignals d.rows s.rows)).map (posOf b)).head?
      = some 0 := by
    rw [head?_map_q, shiftFill_head? _ hsigs]
    simp [posOf]
  have hmr : (rawPortfolio d s cap b).market_return.head? = some 0 := hmr0
  have hpos : (rawPortfolio d s cap b).position.head? = some 0 := hpos0
  have hsr : (rawPortfolio d s cap b).strategy_return.head? = some 0 := by
    show (List.zipWith (fun p r => p * r)
      ((shiftFill (alignedSignals d.rows s.rows)).map (posOf b))
      (fillna0 (pctChange (alignedPrices d.rows s.rows)))).head? = some 0
    rw [zipWith_head?, hpos0, hmr0]
    norm_num
  have heq : (rawPortfolio d s cap b).equity_curve.head? = some cap := by
    show ((cumprod (((rawPortfolio d s cap b).strategy_return).map
      (fun r => 1 + r))).map (fun v => cap * v)).head? = some cap
    rw [head?_map_q, cumprod_head?, head?_map_q, hsr]
    norm_num
  exact ⟨hmr, hpos, hsr, heq, rfl⟩

/-- Witness for C9 at a concrete successful run. -/
theorem C9_witness :
    (rawPortfolio ⟨[(0, 10), (1, 11)], true⟩ ⟨[(0, 1), (1, 1)], true⟩
        250 false).market_return.head? = some 0 ∧
      (rawPortfolio ⟨[(0, 10), (1, 11)], true⟩ ⟨[(0, 1), (1, 1)], true⟩
        250 false).position.head? = some 0 ∧
      (rawPortfolio ⟨[(0, 10), (1, 11)], true⟩ ⟨[(0, 1), (1, 1)], true⟩
        250 false).strategy_return.head? = some 0 ∧
      (rawPortfolio ⟨[(0, 10), (1, 11)], true⟩ ⟨[(0, 1), (1, 1)], true⟩
        250 false).equity_curve.head? = some 250 ∧
      (rawPortfolio ⟨[(0, 10), (1, 11)], true⟩ ⟨[(0, 1), (1, 1)], true⟩
        250 false).dates
        = (commonRows [(0, 10), (1, 11)] [(0, 1), (1, 1)]).map Prod.fst :=
  C9_first_row ⟨[(0, 10), (1, 11)], true⟩ ⟨[(0, 1), (1, 1)], true⟩ 250 false _
    ((run_backtest_some_iff _ _ _ _ _).mpr
      ⟨by decide, by decide, rfl, rfl, by decide, rfl⟩)

theorem lookup_map_zero (l : List (Int × ℚ)) (k : Int) :
    (List.lookup k (l.map (fun r => (r.1, (0 : ℚ))))).getD 0 = 0 := by
  induction l with
  | nil => rfl
  | cons a l ih =>
    simp only [List.map_cons, List.lookup]
    cases hk : k == a.1 with
    | true => simp only [hk]; rfl
    | false => simp only [hk]; exact ih

theorem scanl_mul_one (n : ℕ) (acc : ℚ) :
    List.scanl (fun a x => a * x) acc (List.replicate n 1)
      = List.replicate (n + 1) acc := by
  induction n generalizing acc with
  | zero => rfl
  | succ k ih =>
    rw [List.replicate_succ, List.scanl_cons, mul_one, ih]
    simp [List.replicate_succ]

theorem cumprod_replicate_one (n : ℕ) :
    cumprod (List.replicate n 1) = List.replicate n 1 := by
  unfold cumprod
  rw [scanl_mul_one]
  rfl

theorem zipWith_zero_left (xs : List ℚ) (n : ℕ) (h : xs.length = n) :
    List.zipWith (fun p r => p * r) (List.replicate n (0 : ℚ)) xs
      = List.replicate n 0 := by
  induction xs generalizing n with
  | nil => subst h; rfl
  | cons a l ih =>
    subst h
    simp only [List.length_cons, List.replicate_succ, List.zipWith_cons_cons,
      zero_mul]
    rw [ih l.length rfl]

theorem shiftFill_replicate_zero (n : ℕ) :
    shiftFill (List.replicate n (0 : ℚ)) = List.replicate n 0 := by
  cases n with
  | zero => rfl
  | succ k =>
    show 0 :: (List.replicate (k + 1) (0 : ℚ)).dropLast = List.replicate (k + 1) 0
    rw [List.dropLast_replicate]
    simp [List.replicate_succ]

/-- Core of transformation of an all-zero signal input: the run succeeds and
position, strategy return and equity columns are constant. -/
theorem zero_signal_run (d : PriceDF) (s : SignalDF) (cap : ℚ) (b : Bool)
    (hd : d.rows ≠ []) (hA : d.hasAdjClose = true)
    (hsrows : s.rows = d.rows.map (fun r => (r.1, 0))) (hS : s.hasSignal = true) :
    run_backtest d s cap b = some (rawPortfolio d s cap b)
      ∧ (rawPortfolio d s cap b).position = List.replicate d.rows.length 0
      ∧ (rawPortfolio d s cap b).strategy_return = List.replicate d.rows.length 0
      ∧ (rawPortfolio d s cap b).equity_curve = List.replicate d.rows.length cap := by
  have hcommon : commonRows d.rows s.rows = d.rows := by
    apply List.filter_eq_self.mpr
    intro r hr
    simp only [hsrows, dfDates, List.map_map]
    have hmem : r.1 ∈ d.rows.map Prod.fst := List.mem_map_of_mem Prod.fst hr
    apply List.elem_eq_true_of_mem
    simpa [Function.comp] using hmem
  have hsigs : alignedSignals d.rows s.rows = List.replicate d.rows.length 0 := by
    unfold alignedSignals
    rw [hcommon]
    rw [List.eq_replicate_iff]
    constructor
    · simp
    · intro z hz
      obtain ⟨r, -, hr⟩ := List.mem_map.mp hz
      rw [← hr, hsrows]
      exact lookup_map_zero d.rows r.1
  have hrun : run_backtest d s cap b = some (rawPortfolio d s cap b) := by
    apply (run_backtest_some_iff d s cap b _).mpr
    refine ⟨hd, ?_, hA, hS, ?_, rfl⟩
    · rw [hsrows]
      intro hx
      exact hd (List.map_eq_nil_iff.mp hx)
    · rw [hcommon]; exact hd
  have hmrlen : (fillna0 (pctChange (alignedPrices d.rows s.rows))).length
      = d.rows.length := by
    rw [fillna0_length, pctChange_length, alignedPrices_length, hcommon]
  have hpos : (rawPortfolio d s cap b).position = List.replicate d.rows.length 0 := by
    show (shiftFill (alignedSignals d.rows s.rows)).map (posOf b)
      = List.replicate d.rows.length 0
    rw [hsigs, shiftFill_replicate_zero, List.map_replicate]
    rw [show posOf b 0 = 0 from rfl]
  have hsr : (rawPortfolio d s cap b).strategy_return
      = List.replicate d.rows.length 0 := by
    show List.zipWith (fun p r => p * r)
      ((shiftFill (alignedSignals d.rows s.rows)).map (posOf b))
      (fillna0 (pctChange (alignedPrices d.rows s.rows)))
      = List.replicate d.rows.length 0
    rw [hsigs, shiftFill_replicate_zero, List.map_replicate]
    rw [show posOf b 0 = 0 from rfl]
    exact zipWith_zero_left _ _ hmrlen
  have heq : (rawPortfolio d s cap b).equity_curve
      = List.replicate d.rows.length cap := by
    show (cumprod (((rawPortfolio d s cap b).strategy_return).map
      (fun r => 1 + r))).map (fun v => cap * v)
      = List.replicate d.rows.length cap
    rw [hsr, List.map_replicate, show (1 : ℚ) + 0 = 1 from by norm_num,
      cumprod_replicate_one, List.map_replicate, mul_one]
  exact ⟨hrun, hpos, hsr, heq⟩

/-- C4: feeding an all-zero signal sequence over the same dates as a
non-empty price series yields strategy returns identically 0 and equity
identically the initial capital. -/
theorem C4_zero_signal (d : PriceDF) (cap : ℚ) (b : Bool)
    (hd : d.rows ≠ []) (hA : d.hasAdjClose = true) :
    (run_backtest d ⟨d.rows.map (fun r => (r.1, 0)), true⟩ cap b).map
        (fun P => P.strategy_return) = some (List.replicate d.rows.length 0) ∧
      (run_backtest d ⟨d.rows.map (fun r => (r.1, 0)), true⟩ cap b).map
        (fun P => P.equity_curve) = some (List.replicate d.rows.length cap) := by
  obtain ⟨hrun, -, hsr, heq⟩ :=
    zero_signal_run d ⟨d.rows.map (fun r => (r.1, 0)), true⟩ cap b hd hA rfl rfl
  rw [hrun]
  exact ⟨by simp [hsr], by simp [heq]⟩

/-- Witness for C4 at a concrete two-point price series. -/
theorem C4_witness :
    (run_backtest ⟨[(0, 10), (1, 12)], true⟩
        ⟨[(0, 10), (1, 12)].map (fun r => (r.1, 0)), true⟩ 777 true).map
        (fun P => P.strategy_return) = some (List.replicate 2 0) ∧
      (run_backtest ⟨[(0, 10), (1, 12)], true⟩
        ⟨[(0, 10), (1, 12)].map (fun r => (r.1, 0)), true⟩ 777 true).map
        (fun P => P.equity_curve) = some (List.replicate 2 777) :=
  C4_zero_signal ⟨[(0, 10), (1, 12)], true⟩ 777 true (by decide) rfl

/-! ### Metrics engine (`src/performance.py`) -/

/-- Mean of a series (`Series.mean()`). -/
def listMean (xs : List ℚ) : ℚ := xs.sum / xs.length

/-- Sample variance (`Series.std()` squared, ddof = 1): NaN (`none`) for
fewer than two observations. -/
def sampleVar (xs : List ℚ) : Option ℚ :=
  if xs.length < 2 then none
  else some ((xs.map (fun x => (x - listMean xs) ^ 2)).sum / ((xs.length : ℚ) - 1))

/-- A metric value: NaN sentinel, `np.inf`, or a defined real value. -/
inductive MetricResult where
  | nan : MetricResult
  | inf : MetricResult
  | val (x : ℝ) : MetricResult

/-- `returns - risk_free_rate / 252` (performance.py line 51). -/
def excessReturns (returns : List ℚ) (rf : ℚ) : List ℚ :=
  returns.map (fun r => r - rf / 252)

/-- `excess_returns[excess_returns < 0]` (performance.py line 54). -/
def downsideReturns (returns : List ℚ) (rf : ℚ) : List ℚ :=
  (excessReturns returns rf).filter (fun r => r < 0)

/-- `calculate_sortino` of performance.py lines 44-75.  The input series is
NaN-free in this model, so `dropna` is the identity and the two length
checks coincide.  `downside_deviation` is `(sampleVar neg).map Real.sqrt`:
it is NaN iff `sampleVar` is `none` (a single downside observation,
ddof = 1) and zero iff the sample variance is zero. -/
noncomputable def calculate_sortino (returns : List ℚ) (rf : ℚ) : MetricResult :=
  if returns.length < 2 then .nan
  else if downsideReturns returns rf = [] then
    if 0 < listMean (excessReturns returns rf) then .inf else .nan
  else
    match sampleVar (downsideReturns returns rf) with
    | none => if 0 < listMean (excessReturns returns rf) then .inf else .nan
    | some v =>
      if v = 0 then
        if 0 < listMean (excessReturns returns rf) then .inf else .nan
      else
        .val ((listMean (excessReturns returns rf) : ℝ)
          / Real.sqrt (v : ℝ) * Real.sqrt 252)

/-- C7: Sortino branch behavior for series with at least two observations:
the annualized ratio against the downside standard deviation when negative
excess returns exist with defined nonzero downside deviation; `inf` / NaN by
the sign of the mean excess return when there are no negative excess
returns, and the same when the downside deviation is exactly zero. -/
theorem C7_sortino_cases (returns : List ℚ) (rf : ℚ) (h2 : 2 ≤ returns.length) :
    (∀ v : ℚ, sampleVar (downsideReturns returns rf) = some v → v ≠ 0 →
      calculate_sortino returns rf
        = .val ((listMean (excessReturns returns rf) : ℝ)
            / Real.sqrt (v : ℝ) * Real.sqrt 252))
    ∧ (downsideReturns returns rf = [] →
        (0 < listMean (excessReturns returns rf) →
          calculate_sortino returns rf = .inf)
        ∧ (¬ 0 < listMean (excessReturns returns rf) →
          calculate_sortino returns rf = .nan))
    ∧ (sampleVar (downsideReturns returns rf) = some 0 →
        (0 < listMean (excessReturns returns rf) →
          calculate_sortino returns rf = .inf)
        ∧ (¬ 0 < listMean (excessReturns returns rf) →
          calculate_sortino returns rf = .nan)) := by
  have hlen : ¬ returns.length < 2 := not_lt.mpr h2
  have hne : ∀ v : ℚ, sampleVar (downsideReturns returns rf) = some v →
      downsideReturns returns rf ≠ [] := by
    intro v hv hnil
    rw [hnil] at hv
    simp [sampleVar] at hv
  refine ⟨?_, ?_, ?_⟩
  · intro v hv hv0
    unfold calculate_sortino
    rw [if_neg hlen, if_neg (hne v hv), hv]
    dsimp only
    rw [if_neg hv0]
  · intro hnil
    constructor <;> intro hmean <;> unfold calculate_sortino <;>
      rw [if_neg hlen, if_pos hnil] <;> simp [hmean]
  · intro hv
    constructor <;> intro hmean <;> unfold calculate_sortino <;>
      rw [if_neg hlen, if_neg (hne 0 hv), hv] <;> dsimp only <;> simp [hmean]

/-- Witness for C7: a two-point series with no negative excess returns and
positive mean excess return gives `inf`. -/
theorem C7_witness : calculate_sortino [1, 2] 0 = .inf := by
  have hnil : downsideReturns [1, 2] 0 = [] := by
    norm_num [downsideReturns, excessReturns, List.filter]
  have hmean : 0 < listMean (excessReturns [1, 2] 0) := by
    norm_num [listMean, excessReturns]
  exact ((C7_sortino_cases [1, 2] 0 (by norm_num)).2.1 hnil).1 hmean

/-- `Series.cummax()` continuation: running maxima given the running
maximum so far. -/
def cummaxGo (m : ℚ) : List ℚ → List ℚ
  | [] => []
  | x :: xs => max m x :: cummaxGo (max m x) xs

/-- `Series.cummax()`. -/
def cummax : List ℚ → List ℚ
  | [] => []
  | x :: xs => x :: cummaxGo x xs

/-- `calculate_max_drawdown` of performance.py lines 78-94: NaN for fewer
than two points or any non-positive value; otherwise the minimum of
`(cumulative - running_max) / running_max` over the curve normalized by its
first value. -/
def calculate_max_drawdown (pv : List ℚ) : Option ℚ :=
  if pv.length < 2 then none
  else if pv.any (fun x => x ≤ 0) then none
  else
    match pv with
    | [] => none
    | v0 :: _ =>
      (List.zipWith (fun c m => (c - m) / m) (pv.map (fun v => v / v0))
        (cummax (pv.map (fun v => v / v0)))).min?

theorem drawdown_entry_bounds (x mm : ℚ) (hx : 0 < x) (hxm : x ≤ mm) :
    -1 < (x - mm) / mm ∧ (x - mm) / mm ≤ 0 := by
  have hm : 0 < mm := lt_of_lt_of_le hx hxm
  constructor
  · rw [lt_div_iff₀ hm]
    linarith
  · rw [div_le_iff₀ hm]
    linarith

theorem cummaxGo_dd_bounds (xs : List ℚ) (m : ℚ) (hxs : ∀ x ∈ xs, 0 < x) :
    ∀ e ∈ List.zipWith (fun c mm => (c - mm) / mm) xs (cummaxGo m xs),
      -1 < e ∧ e ≤ 0 := by
  induction xs generalizing m with
  | nil => intro e he; simp at he
  | cons x l ih =>
    intro e he
    rw [show cummaxGo m (x :: l) = max m x :: cummaxGo (max m x) l from rfl,
      List.zipWith_cons_cons] at he
    rcases List.mem_cons.mp he with he | he
    · subst he
      exact drawdown_entry_bounds x (max m x) (hxs x (List.mem_cons_self _ _))
        (le_max_right m x)
    · exact ih (max m x) (fun y hy => hxs y (List.mem_cons_of_mem x hy)) e he

theorem cummax_dd_bounds (xs : List ℚ) (hxs : ∀ x ∈ xs, 0 < x) :
    ∀ e ∈ List.zipWith (fun c mm => (c - mm) / mm) xs (cummax xs),
      -1 < e ∧ e ≤ 0 := by
  cases xs with
  | nil => intro e he; simp at he
  | cons x l =>
    intro e he
    rw [show cummax (x :: l) = x :: cummaxGo x l from rfl,
      List.zipWith_cons_cons] at he
    rcases List.mem_cons.mp he with he | he
    · subst he
      exact drawdown_entry_bounds x x (hxs x (List.mem_cons_self _ _)) le_rfl
    · exact cummaxGo_dd_bounds l x (fun y hy => hxs y (List.mem_cons_of_mem x hy))
        e he

/-- C8: for curves with at least two strictly positive points, Max Drawdown
is defined, at most 0 and strictly above -1; for short curves or curves
with a non-positive value it is the NaN sentinel. -/
theorem C8_max_drawdown_bounds (pv : List ℚ) :
    (2 ≤ pv.length → (∀ x ∈ pv, 0 < x) →
      ∃ dd, calculate_max_drawdown pv = some dd ∧ dd ≤ 0 ∧ -1 < dd)
    ∧ (pv.length < 2 ∨ (∃ x ∈ pv, x ≤ 0) → calculate_max_drawdown pv = none) := by
  constructor
  · intro h2 hpos
    obtain ⟨v0, rest, rfl⟩ := List.exists_cons_of_ne_nil
      (List.ne_nil_of_length_pos (lt_of_lt_of_le two_pos h2))
    have hv0 : 0 < v0 := hpos v0 (List.mem_cons_self _ _)
    have hany : (v0 :: rest).any (fun x => x ≤ 0) = false := by
      rw [List.any_eq_false]
      intro x hx
      simpa using not_le.mpr (hpos x hx)
    have hcpos : ∀ c ∈ (v0 :: rest).map (fun v => v / v0), 0 < c := by
      intro c hc
      obtain ⟨v, hv, rfl⟩ := List.mem_map.mp hc
      exact div_pos (hpos v hv) hv0
    unfold calculate_max_drawdown
    rw [if_neg (not_lt.mpr h2), hany]
    simp only [Bool.false_eq_true, if_false]
    have hddne : List.zipWith (fun c m => (c - m) / m)
        ((v0 :: rest).map (fun v => v / v0))
        (cummax ((v0 :: rest).map (fun v => v / v0))) ≠ [] := by
      simp [cummax]
    cases hmin : (List.zipWith (fun c m => (c - m) / m)
        ((v0 :: rest).map (fun v => v / v0))
        (cummax ((v0 :: rest).map (fun v => v / v0)))).min? with
    | none =>
      exact absurd (List.min?_eq_none_iff.mp hmin) hddne
    | some dd =>
      refine ⟨dd, rfl, ?_, ?_⟩
      · exact (cummax_dd_bounds _ hcpos dd (List.min?_mem (fun _ _ => min_choice _ _) hmin)).2
      · exact (cummax_dd_bounds _ hcpos dd (List.min?_mem (fun _ _ => min_choice _ _) hmin)).1
  · intro h
    unfold calculate_max_drawdown
    rcases h with h | ⟨x, hx, hx0⟩
    · rw [if_pos h]
    · by_cases h2 : pv.length < 2
      · rw [if_pos h2]
      · rw [if_neg h2, if_pos (List.any_eq_true.mpr ⟨x, hx, by simpa using hx0⟩)]

/-- Witness for C8: the curve [4, 2, 3] has max drawdown in (-1, 0]. -/
theorem C8_witness :
    ∃ dd, calculate_max_drawdown [4, 2, 3] = some dd ∧ dd ≤ 0 ∧ -1 < dd :=
  (C8_max_drawdown_bounds [4, 2, 3]).1 (by norm_num)
    (by
      intro x hx
      simp only [List.mem_cons, List.not_mem_nil, or_false] at hx
      rcases hx with rfl | rfl | rfl <;> norm_num)

/-- `calculate_calmar` of performance.py lines 97-105: NaN when either
input is NaN or the drawdown is zero; otherwise the drawdown is flipped to
the conventional negative sign if positive, and the result is
`cagr / abs(drawdown)`. -/
def calculate_calmar (cagr dd : Option ℚ) : Option ℚ :=
  match dd, cagr with
  | none, _ => none
  | _, none => none
  | some d, some c =>
    if d = 0 then none
    else some (c / |if 0 < d then -d else d|)

/-- C10: the Calmar computation is invariant under the sign of the drawdown
argument: for defined CAGR c and defined nonzero drawdown d it returns
`c / |d|` for both d and -d. -/
theorem C10_calmar_sign_invariant (c d : ℚ) (hd : d ≠ 0) :
    calculate_calmar (some c) (some d) = some (c / |d|)
      ∧ calculate_calmar (some c) (some (-d)) = some (c / |d|) := by
  unfold calculate_calmar
  dsimp only
  rw [if_neg hd, if_neg (neg_ne_zero.mpr hd)]
  constructor
  · by_cases hpos : 0 < d
    · rw [if_pos hpos, abs_neg]
    · rw [if_neg hpos]
  · by_cases hpos : 0 < -d
    · rw [if_pos hpos, abs_neg, abs_neg]
    · rw [if_neg hpos, abs_neg]

/-- Witness for C10 at the spec's concrete scenario: CAGR 0.10 and drawdown
magnitude 0.20 give the same Calmar whether the drawdown is passed as
-0.20 or +0.20. -/
theorem C10_witness :
    calculate_calmar (some (1 / 10)) (some (1 / 5)) = some ((1 / 10) / |(1 : ℚ) / 5|)
      ∧ calculate_calmar (some (1 / 10)) (some (-(1 / 5)))
        = some ((1 / 10) / |(1 : ℚ) / 5|) :=
  C10_calmar_sign_invariant (1 / 10) (1 / 5) (by norm_num)

/-! ### C3: shorting-disabled invariant -/

/-- The claim's preprocessing: replace every -1 signal value by 0. -/
def replaceShorts (s : SignalDF) : SignalDF :=
  ⟨s.rows.map (fun r => (r.1, if r.2 = -1 then 0 else r.2)), s.hasSignal⟩

/-- Drop the recorded raw `signal` column of a portfolio, keeping every
derived column. -/
def eraseSig (P : Portfolio) : Portfolio :=
  { P with signal := [] }

theorem run_backtest_none_iff (d : PriceDF) (s : SignalDF) (cap : ℚ) (b : Bool) :
    run_backtest d s cap b = none ↔
      (d.rows = [] ∨ s.rows = [] ∨ d.hasAdjClose = false ∨ s.hasSignal = false ∨
        commonRows d.rows s.rows = []) := by
  constructor
  · intro h
    by_contra hc
    push_neg at hc
    obtain ⟨hd, hs, hA, hS, hcr⟩ := hc
    have hA' : d.hasAdjClose = true := by
      cases hh : d.hasAdjClose
      · exact absurd hh hA
      · rfl
    have hS' : s.hasSignal = true := by
      cases hh : s.hasSignal
      · exact absurd hh hS
      · rfl
    have := (run_backtest_some_iff d s cap b (rawPortfolio d s cap b)).mpr
      ⟨hd, hs, hA', hS', hcr, rfl⟩
    rw [this] at h
    exact Option.noConfusion h
  · intro h
    cases hr : run_backtest d s cap b with
    | none => rfl
    | some P =>
      exfalso
      obtain ⟨hd, hs, hA, hS, hcr, -⟩ := (run_backtest_some_iff d s cap b P).mp hr
      rcases h with h | h | h | h | h
      · exact hd h
      · exact hs h
      · rw [hA] at h; exact Bool.noConfusion h
      · rw [hS] at h; exact Bool.noConfusion h
      · exact hcr h

theorem lookup_map_val (l : List (Int × ℚ)) (k : Int) (f : ℚ → ℚ) :
    List.lookup k (l.map (fun r => (r.1, f r.2))) = (List.lookup k l).map f := by
  induction l with
  | nil => rfl
  | cons a l ih =>
    simp only [List.map_cons, List.lookup]
    cases hk : k == a.1 with
    | true => simp only [hk]; rfl
    | false => simp only [hk]; exact ih

theorem lookup_mem_values (l : List (Int × ℚ)) (k : Int) (v : ℚ)
    (h : List.lookup k l = some v) : v ∈ l.map Prod.snd := by
  induction l with
  | nil => exact Option.noConfusion h
  | cons a l ih =>
    rw [show List.lookup k (a :: l)
      = match k == a.1 with
        | true => some a.2
        | false => List.lookup k l from rfl] at h
    cases hk : k == a.1 with
    | true =>
      rw [hk] at h
      rw [List.map_cons, Option.some_injective _ h]
      exact List.mem_cons_self _ _
    | false =>
      rw [hk] at h
      exact List.mem_cons_of_mem _ (ih h)

theorem replaceShorts_dates (s : SignalDF) :
    dfDates (replaceShorts s).rows = dfDates s.rows := by
  simp [replaceShorts, dfDates, List.map_map, Function.comp]

theorem shiftFill_map_zero_fixed (f : ℚ → ℚ) (hf : f 0 = 0) (xs : List ℚ) :
    shiftFill (xs.map f) = (shiftFill xs).map f := by
  cases xs with
  | nil => rfl
  | cons a l =>
    show 0 :: ((a :: l).map f).dropLast = (0 :: (a :: l).dropLast).map f
    rw [show (0 :: (a :: l).dropLast).map f = f 0 :: ((a :: l).dropLast).map f from
      List.map_cons f 0 ((a :: l).dropLast), hf, List.map_dropLast]

theorem shiftFill_mem (xs : List ℚ) (x : ℚ) (hx : x ∈ shiftFill xs) :
    x = 0 ∨ x ∈ xs := by
  cases xs with
  | nil => simp [shiftFill] at hx
  | cons a l =>
    rcases List.mem_cons.mp hx with h | h
    · exact Or.inl h
    · exact Or.inr (List.dropLast_subset _ h)

theorem alignedSignals_mem (drows srows : List (Int × ℚ)) (x : ℚ)
    (hx : x ∈ alignedSignals drows srows) : x = 0 ∨ x ∈ srows.map Prod.snd := by
  obtain ⟨r, -, hr⟩ := List.mem_map.mp hx
  cases hl : List.lookup r.1 srows with
  | none => rw [← hr, hl]; exact Or.inl rfl
  | some v =>
    right
    rw [← hr, hl]
    exact lookup_mem_values srows r.1 v hl

theorem posOf_replace (b : Bool) (v : ℚ) (hv : v = -1 ∨ v = 0 ∨ v = 1) :
    posOf b (if v = -1 then 0 else v) = posOf false v := by
  rcases hv with rfl | rfl | rfl <;> norm_num [posOf]

theorem eraseSig_eq_of_fields (P P2 : Portfolio)
    (h1 : P.dates = P2.dates) (h2 : P.adjClose = P2.adjClose)
    (h3 : P.position = P2.position) (h4 : P.market_return = P2.market_return)
    (h5 : P.strategy_return = P2.strategy_return)
    (h6 : P.cumulative_market = P2.cumulative_market)
    (h7 : P.cumulative_strategy = P2.cumulative_strategy)
    (h8 : P.equity_curve = P2.equity_curve) :
    eraseSig P = eraseSig P2 := by
  cases P
  cases P2
  simp_all [eraseSig]

/-- C3 counterexample: the claim's "same Trajectory" is false as stated,
because the portfolio records the raw `signal` column: with a -1 signal
present, the original and the minus-one-replaced runs return portfolios
whose `signal` columns differ. -/
theorem C3_counterexample :
    run_backtest ⟨[(0, 100), (1, 101)], true⟩ ⟨[(0, -1), (1, 0)], true⟩ 100 false
      ≠ run_backtest ⟨[(0, 100), (1, 101)], true⟩
          (replaceShorts ⟨[(0, -1), (1, 0)], true⟩) 100 false := by
  intro h
  rw [(run_backtest_some_iff ⟨[(0, 100), (1, 101)], true⟩
      ⟨[(0, -1), (1, 0)], true⟩ 100 false _).mpr
      ⟨by decide, by decide, rfl, rfl, by decide, rfl⟩] at h
  rw [(run_backtest_some_iff ⟨[(0, 100), (1, 101)], true⟩
      (replaceShorts ⟨[(0, -1), (1, 0)], true⟩) 100 false _).mpr
      ⟨by decide, by decide, rfl, rfl, by decide, rfl⟩] at h
  have h2 := congrArg Portfolio.signal (Option.some_injective _ h)
  exact absurd h2 (by decide)

/-- C3 amended: with all signal values in {-1, 0, 1}, disabling shorting
produces the same trajectory as replacing every -1 by 0 (under either
shorting setting) in every column EXCEPT the recorded raw `signal` column
(which keeps the pre-replacement values). -/
theorem C3_shorting_disabled (d : PriceDF) (s : SignalDF) (cap : ℚ) (b : Bool)
    (hvals : ∀ v ∈ s.rows.map Prod.snd, v = -1 ∨ v = 0 ∨ v = 1) :
    (run_backtest d s cap false).map eraseSig
      = (run_backtest d (replaceShorts s) cap b).map eraseSig := by
  have hcommon : commonRows d.rows (replaceShorts s).rows = commonRows d.rows s.rows :=
    commonRows_congr d.rows s.rows (replaceShorts s).rows (replaceShorts_dates s)
  by_cases hfail : d.rows = [] ∨ s.rows = [] ∨ d.hasAdjClose = false ∨
      s.hasSignal = false ∨ commonRows d.rows s.rows = []
  · have hfail2 : d.rows = [] ∨ (replaceShorts s).rows = [] ∨ d.hasAdjClose = false ∨
        (replaceShorts s).hasSignal = false ∨
        commonRows d.rows (replaceShorts s).rows = [] := by
      rcases hfail with h | h | h | h | h
      · exact Or.inl h
      · exact Or.inr (Or.inl (by simp [replaceShorts, h]))
      · exact Or.inr (Or.inr (Or.inl h))
      · exact Or.inr (Or.inr (Or.inr (Or.inl h)))
      · exact Or.inr (Or.inr (Or.inr (Or.inr (by rw [hcommon]; exact h))))
    rw [(run_backtest_none_iff d s cap false).mpr hfail,
      (run_backtest_none_iff d (replaceShorts s) cap b).mpr hfail2]
  · push_neg at hfail
    obtain ⟨hd, hs, hA, hS, hcr⟩ := hfail
    have hA' : d.hasAdjClose = true := by
      cases hh : d.hasAdjClose
      · exact absurd hh hA
      · rfl
    have hS' : s.hasSignal = true := by
      cases hh : s.hasSignal
      · exact absurd hh hS
      · rfl
    rw [(run_backtest_some_iff d s cap false _).mpr ⟨hd, hs, hA', hS', hcr, rfl⟩,
      (run_backtest_some_iff d (replaceShorts s) cap b _).mpr
        ⟨hd, by simpa [replaceShorts] using hs, hA', by simpa [replaceShorts] using hS',
          by rwa [hcommon], rfl⟩]
    show some (eraseSig (rawPortfolio d s cap false))
      = some (eraseSig (rawPortfolio d (replaceShorts s) cap b))
    congr 1
    have hprices : alignedPrices d.rows (replaceShorts s).rows
        = alignedPrices d.rows s.rows := by
      unfold alignedPrices
      rw [hcommon]
    have hsigs : alignedSignals d.rows (replaceShorts s).rows
        = (alignedSignals d.rows s.rows).map (fun v => if v = -1 then 0 else v) := by
      unfold alignedSignals
      rw [hcommon, List.map_map]
      apply List.map_congr_left
      intro r hr
      show (List.lookup r.1 (replaceShorts s).rows).getD 0
        = (fun v => if v = -1 then 0 else v) ((List.lookup r.1 s.rows).getD 0)
      rw [show (replaceShorts s).rows
        = s.rows.map (fun r => (r.1, if r.2 = -1 then 0 else r.2)) from rfl]
      rw [lookup_map_val s.rows r.1 (fun v => if v = -1 then 0 else v)]
      cases List.lookup r.1 s.rows with
      | none => norm_num
      | some v => rfl
    have hpos : (rawPortfolio d (replaceShorts s) cap b).position
        = (rawPortfolio d s cap false).position := by
      show (shiftFill (alignedSignals d.rows (replaceShorts s).rows)).map (posOf b)
        = (shiftFill (alignedSignals d.rows s.rows)).map (posOf false)
      rw [hsigs, shiftFill_map_zero_fixed _ (by norm_num), List.map_map]
      apply List.map_congr_left
      intro x hx
      apply posOf_replace
      rcases shiftFill_mem _ x hx with h | h
      · exact Or.inr (Or.inl h)
      · rcases alignedSignals_mem d.rows s.rows x h with h2 | h2
        · exact Or.inr (Or.inl h2)
        · exact hvals x h2
    have hmr : (rawPortfolio d (replaceShorts s) cap b).market_return
        = (rawPortfolio d s cap false).market_return := by
      show fillna0 (pctChange (alignedPrices d.rows (replaceShorts s).rows))
        = fillna0 (pctChange (alignedPrices d.rows s.rows))
      rw [hprices]
    have hsr : (rawPortfolio d (replaceShorts s) cap b).strategy_return
        = (rawPortfolio d s cap false).strategy_return := by
      show List.zipWith (fun p r => p * r)
          (rawPortfolio d (replaceShorts s) cap b).position
          (rawPortfolio d (replaceShorts s) cap b).market_return
        = List.zipWith (fun p r => p * r)
          (rawPortfolio d s cap false).position
          (rawPortfolio d s cap false).market_return
      rw [hpos, hmr]
    apply eraseSig_eq_of_fields
    · show (commonRows d.rows s.rows).map Prod.fst
        = (commonRows d.rows (replaceShorts s).rows).map Prod.fst
      rw [hcommon]
    · exact hprices.symm
    · exact hpos.symm
    · exact hmr.symm
    · exact hsr.symm
    · show cumprod ((rawPortfolio d s cap false).market_return.map (fun r => 1 + r))
        = cumprod ((rawPortfolio d (replaceShorts s) cap b).market_return.map
          (fun r => 1 + r))
      rw [hmr]
    · show cumprod ((rawPortfolio d s cap false).strategy_return.map (fun r => 1 + r))
        = cumprod ((rawPortfolio d (replaceShorts s) cap b).strategy_return.map
          (fun r => 1 + r))
      rw [hsr]
    · show (cumprod ((rawPortfolio d s cap false).strategy_return.map
          (fun r => 1 + r))).map (fun v => cap * v)
        = (cumprod ((rawPortfolio d (replaceShorts s) cap b).strategy_return.map
          (fun r => 1 + r))).map (fun v => cap * v)
      rw [hsr]

/-- Witness for the amended C3 at a concrete input containing a -1 signal,
with the replaced run executed with shorting enabled. -/
theorem C3_witness :
    (run_backtest ⟨[(0, 100), (1, 101)], true⟩ ⟨[(0, -1), (1, 1)], true⟩
        100 false).map eraseSig
      = (run_backtest ⟨[(0, 100), (1, 101)], true⟩
          (replaceShorts ⟨[(0, -1), (1, 1)], true⟩) 100 true).map eraseSig :=
  C3_shorting_disabled ⟨[(0, 100), (1, 101)], true⟩ ⟨[(0, -1), (1, 1)], true⟩
    100 true (by decide)

/-! ### SMA crossover strategy (`src/strategy.py` lines 96-135) and C5 -/

/-- Pandas-style comparison: false when either side is NaN. -/
def oLT (a b : Option ℚ) : Bool :=
  match a, b with
  | some x, some y => decide (x < y)
  | _, _ => false

/-- Pandas-style comparison: false when either side is NaN. -/
def oLE (a b : Option ℚ) : Bool :=
  match a, b with
  | some x, some y => decide (x ≤ y)
  | _, _ => false

/-- Pandas-style comparison: false when either side is NaN. -/
def oGT (a b : Option ℚ) : Bool := oLT b a

/-- Pandas-style comparison: false when either side is NaN. -/
def oGE (a b : Option ℚ) : Bool := oLE b a

/-- `Series.shift(k)` on an index-valued series: NaN for the first k
positions. -/
def shiftO (f : ℕ → Option ℚ) (k t : ℕ) : Option ℚ :=
  if k ≤ t then f (t - k) else none

/-- `Series.rolling(window=w, min_periods=w).mean()` at index t: defined
once a full window fits. -/
def smaAt (w : ℕ) (p : List ℚ) (t : ℕ) : Option ℚ :=
  if w ≤ t + 1 ∧ t < p.length then
    some (((List.range w).map (fun i => p.getD (t + 1 - w + i) 0)).sum / (w : ℚ))
  else none

/-- strategy.py lines 118-119: short SMA strictly above long SMA yesterday
and not strictly above the day before. -/
def smaCrossUp (ws wl : ℕ) (p : List ℚ) (t : ℕ) : Bool :=
  oGT (shiftO (smaAt ws p) 1 t) (shiftO (smaAt wl p) 1 t)
    && oLE (shiftO (smaAt ws p) 2 t) (shiftO (smaAt wl p) 2 t)

/-- strategy.py lines 122-123: the symmetric downward crossover. -/
def smaCrossDown (ws wl : ℕ) (p : List ℚ) (t : ℕ) : Bool :=
  oLT (shiftO (smaAt ws p) 1 t) (shiftO (smaAt wl p) 1 t)
    && oGE (shiftO (smaAt ws p) 2 t) (shiftO (smaAt wl p) 2 t)

/-- The signal column after the two crossover assignments (the -1
assignment of line 122 runs after the 1 assignment of line 118, so it wins
on overlap) and after line 126's `ffill().fillna(0)`, which is the identity
here because the column was initialized to 0.0 at construction and never
holds NaN. -/
def smaSig1 (ws wl : ℕ) (p : List ℚ) (t : ℕ) : ℚ :=
  if smaCrossDown ws wl p t then -1 else if smaCrossUp ws wl p t then 1 else 0

/-- The correction of line 129 (flatten a held long when the unlagged short
SMA is below the long SMA), reading the `shift(1)` of the post-fill
column. -/
def smaSig2 (ws wl : ℕ) (p : List ℚ) (t : ℕ) : ℚ :=
  if (1 ≤ t ∧ smaSig1 ws wl p (t - 1) = 1) ∧ oLT (smaAt ws p t) (smaAt wl p t)
  then 0 else smaSig1 ws wl p t

/-- The correction of line 131 (flatten a held short), reading the
`shift(1)` of the column as already mutated by line 129. -/
def smaSig3 (ws wl : ℕ) (p : List ℚ) (t : ℕ) : ℚ :=
  if (1 ≤ t ∧ smaSig2 ws wl p (t - 1) = -1) ∧ oGT (smaAt ws p t) (smaAt wl p t)
  then 0 else smaSig2 ws wl p t

/-- `SMACrossoverStrategy(data, short, long).generate_signals()`: `none`
models the constructor validation errors (empty data, short >= long,
series shorter than the long window). -/
def generate_signals_sma (ws wl : ℕ) (p : List ℚ) : Option (List ℚ) :=
  if p = [] then none
  else if wl ≤ ws then none
  else if p.length < wl then none
  else some ((List.range p.length).map (smaSig3 ws wl p))

theorem oLE_none (a : Option ℚ) : oLE a none = false := by
  cases a <;> rfl

theorem oLT_none (a : Option ℚ) : oLT a none = false := by
  cases a <;> rfl

theorem shiftO_le (f : ℕ → Option ℚ) (k t : ℕ) (h : k ≤ t) :
    shiftO f k t = f (t - k) := by
  unfold shiftO
  rw [if_pos h]

theorem shiftO_gt (f : ℕ → Option ℚ) (k t : ℕ) (h : ¬ k ≤ t) :
    shiftO f k t = none := by
  unfold shiftO
  rw [if_neg h]

theorem smaAt_two (p : List ℚ) (t : ℕ) (h1 : 1 ≤ t) (ht : t < p.length) :
    smaAt 2 p t = some ((p.getD (t - 1) 0 + p.getD t 0) / 2) := by
  unfold smaAt
  rw [if_pos ⟨by omega, ht⟩]
  congr 1
  have e0 : t + 1 - 2 + 0 = t - 1 := by omega
  have e1 : t + 1 - 2 + 1 = t := by omega
  rw [show List.range 2 = [0, 1] from rfl]
  simp only [List.map_cons, List.map_nil, List.sum_cons, List.sum_nil, e0, e1]
  norm_num

theorem smaAt_three (p : List ℚ) (t : ℕ) (h2 : 2 ≤ t) (ht : t < p.length) :
    smaAt 3 p t
      = some ((p.getD (t - 2) 0 + p.getD (t - 1) 0 + p.getD t 0) / 3) := by
  unfold smaAt
  rw [if_pos ⟨by omega, ht⟩]
  congr 1
  have e0 : t + 1 - 3 + 0 = t - 2 := by omega
  have e1 : t + 1 - 3 + 1 = t - 1 := by omega
  have e2 : t + 1 - 3 + 2 = t := by omega
  rw [show List.range 3 = [0, 1, 2] from rfl]
  simp only [List.map_cons, List.map_nil, List.sum_cons, List.sum_nil, e0, e1, e2]
  norm_num
  ring

theorem sma2_gt_sma3 (p : List ℚ)
    (hmono : ∀ i, i + 1 < p.length → p.getD i 0 < p.getD (i + 1) 0)
    (t : ℕ) (h2 : 2 ≤ t) (ht : t < p.length) :
    (p.getD (t - 2) 0 + p.getD (t - 1) 0 + p.getD t 0) / 3
      < (p.getD (t - 1) 0 + p.getD t 0) / 2 := by
  have ha : p.getD (t - 2) 0 < p.getD (t - 1) 0 := by
    have h := hmono (t - 2) (by omega)
    rwa [show t - 2 + 1 = t - 1 from by omega] at h
  have hb : p.getD (t - 1) 0 < p.getD t 0 := by
    have h := hmono (t - 1) (by omega)
    rwa [show t - 1 + 1 = t from by omega] at h
  linarith

theorem oLE_sma_false (p : List ℚ)
    (hmono : ∀ i, i + 1 < p.length → p.getD i 0 < p.getD (i + 1) 0) (t : ℕ) :
    oLE (smaAt 2 p t) (smaAt 3 p t) = false := by
  by_cases h : 2 ≤ t ∧ t < p.length
  · rw [smaAt_two p t (by omega) h.2, smaAt_three p t h.1 h.2]
    simp only [oLE]
    exact decide_eq_false (not_le.mpr (sma2_gt_sma3 p hmono t h.1 h.2))
  · have h3 : smaAt 3 p t = none := by
      unfold smaAt
      rw [if_neg]
      intro hc
      exact h ⟨by omega, hc.2⟩
    rw [h3, oLE_none]

theorem oGE_sma_false (p : List ℚ)
    (hmono : ∀ i, i + 1 < p.length → p.getD i 0 < p.getD (i + 1) 0) (t : ℕ) :
    oLT (smaAt 2 p t) (smaAt 3 p t) = false := by
  by_cases h : 2 ≤ t ∧ t < p.length
  · rw [smaAt_two p t (by omega) h.2, smaAt_three p t h.1 h.2]
    simp only [oLT]
    exact decide_eq_false (not_lt.mpr (le_of_lt (sma2_gt_sma3 p hmono t h.1 h.2)))
  · have h3 : smaAt 3 p t = none := by
      unfold smaAt
      rw [if_neg]
      intro hc
      exact h ⟨by omega, hc.2⟩
    rw [h3, oLT_none]

theorem smaCrossUp_false (p : List ℚ)
    (hmono : ∀ i, i + 1 < p.length → p.getD i 0 < p.getD (i + 1) 0) (t : ℕ) :
    smaCrossUp 2 3 p t = false := by
  unfold smaCrossUp
  by_cases hk : 2 ≤ t
  · rw [shiftO_le (smaAt 2 p) 2 t hk, shiftO_le (smaAt 3 p) 2 t hk,
      oLE_sma_false p hmono (t - 2), Bool.and_false]
  · rw [shiftO_gt (smaAt 3 p) 2 t hk, oLE_none, Bool.and_false]

theorem smaCrossDown_false (p : List ℚ)
    (hmono : ∀ i, i + 1 < p.length → p.getD i 0 < p.getD (i + 1) 0) (t : ℕ) :
    smaCrossDown 2 3 p t = false := by
  unfold smaCrossDown
  by_cases hk : 1 ≤ t
  · rw [shiftO_le (smaAt 2 p) 1 t hk, shiftO_le (smaAt 3 p) 1 t hk,
      oGE_sma_false p hmono (t - 1), Bool.false_and]
  · rw [shiftO_gt (smaAt 3 p) 1 t hk, oLT_none, Bool.false_and]

theorem smaSig1_zero (p : List ℚ)
    (hmono : ∀ i, i + 1 < p.length → p.getD i 0 < p.getD (i + 1) 0) (t : ℕ) :
    smaSig1 2 3 p t = 0 := by
  unfold smaSig1
  rw [smaCrossDown_false p hmono t, smaCrossUp_false p hmono t]
  simp

theorem smaSig2_zero (p : List ℚ)
    (hmono : ∀ i, i + 1 < p.length → p.getD i 0 < p.getD (i + 1) 0) (t : ℕ) :
    smaSig2 2 3 p t = 0 := by
  unfold smaSig2
  simp [smaSig1_zero p hmono]

theorem smaSig3_zero (p : List ℚ)
    (hmono : ∀ i, i + 1 < p.length → p.getD i 0 < p.getD (i + 1) 0) (t : ℕ) :
    smaSig3 2 3 p t = 0 := by
  unfold smaSig3
  simp [smaSig2_zero p hmono]

theorem generate_sma_rising (p : List ℚ)
    (hmono : ∀ i, i + 1 < p.length → p.getD i 0 < p.getD (i + 1) 0)
    (hlen : 3 ≤ p.length) :
    generate_signals_sma 2 3 p = some (List.replicate p.length 0) := by
  unfold generate_signals_sma
  rw [if_neg (show ¬ p = [] from by
    intro h
    rw [h] at hlen
    simp at hlen)]
  rw [if_neg (by norm_num), if_neg (by omega)]
  congr 1
  apply List.eq_replicate_iff.mpr
  constructor
  · simp
  · intro x hx
    obtain ⟨t, -, ht⟩ := List.mem_map.mp hx
    rw [← ht]
    exact smaSig3_zero p hmono t

/-- A date-indexed price DataFrame built from a bare price list. -/
def toPriceDF (p : List ℚ) : PriceDF :=
  ⟨(List.range p.length).map (fun i => (Int.ofNat i, p.getD i 0)), true⟩

/-- A date-indexed signal DataFrame built from a bare signal list. -/
def toSignalDF (sigs : List ℚ) : SignalDF :=
  ⟨(List.range sigs.length).map (fun i => (Int.ofNat i, sigs.getD i 0)), true⟩

theorem replicate_zero_getD (n i : ℕ) : (List.replicate n (0 : ℚ)).getD i 0 = 0 := by
  rw [List.getD_eq_getElem?_getD, List.getElem?_replicate]
  split <;> rfl

theorem toSignalDF_zero_rows (p : List ℚ) :
    (toSignalDF (List.replicate p.length 0)).rows
      = (toPriceDF p).rows.map (fun r => (r.1, 0)) := by
  simp only [toSignalDF, toPriceDF, List.length_replicate, List.map_map]
  apply List.map_congr_left
  intro i hi
  simp [Function.comp, replicate_zero_getD]

/-- `Series.diff().fillna(0)`: 0 at index 0, consecutive difference
afterwards. -/
def diffFill (xs : List ℚ) : List ℚ :=
  match xs with
  | [] => []
  | _ :: t => 0 :: List.zipWith (fun a b => a - b) t xs

/-- Total Trades (performance.py line 140):
`position.diff().fillna(0).abs().sum() / 2`. -/
def totalTrades (pos : List ℚ) : ℚ :=
  ((diffFill pos).map (fun x => |x|)).sum / 2

theorem zipWith_sub_zeros (k n : ℕ) :
    List.zipWith (fun a b => a - b) (List.replicate k (0 : ℚ))
      (List.replicate n (0 : ℚ)) = List.replicate (min k n) 0 := by
  induction k generalizing n with
  | zero => simp
  | succ m ih =>
    cases n with
    | zero => simp
    | succ n2 =>
      rw [List.replicate_succ, List.replicate_succ, List.zipWith_cons_cons, ih n2]
      rw [show min (m + 1) (n2 + 1) = min m n2 + 1 from by omega]
      rw [List.replicate_succ]
      norm_num

theorem diffFill_replicate_zero (n : ℕ) :
    diffFill (List.replicate n (0 : ℚ)) = List.replicate n 0 := by
  cases n with
  | zero => rfl
  | succ k =>
    show 0 :: List.zipWith (fun a b => a - b) (List.replicate k 0)
        (List.replicate (k + 1) 0) = List.replicate (k + 1) 0
    rw [zipWith_sub_zeros, show min k (k + 1) = k from by omega]
    rfl

theorem totalTrades_replicate_zero (n : ℕ) :
    totalTrades (List.replicate n 0) = 0 := by
  unfold totalTrades
  rw [diffFill_replicate_zero, List.map_replicate, abs_zero, List.sum_replicate]
  simp

/-- C5 amended: over any strictly increasing 10-point series,
SMACrossover(short=2, long=3) emits no -1 (indeed, the entire signal
sequence is 0: the crossover masks of lines 118-123 are never true in a
rising series because with NaN-comparisons-false there is no index where
yesterday's short SMA is above the long SMA while the day before it was
not), and the resulting Total Trades metric is exactly 0 — not 1 as the
claim states. -/
theorem C5_sma_rising (p : List ℚ) (hlen : p.length = 10)
    (hmono : ∀ i, i + 1 < p.length → p.getD i 0 < p.getD (i + 1) 0) :
    ∃ sigs, generate_signals_sma 2 3 p = some sigs ∧ (-1 : ℚ) ∉ sigs ∧
      ∀ cap b, (run_backtest (toPriceDF p) (toSignalDF sigs) cap b).map
          (fun P => totalTrades P.position) = some 0 := by
  refine ⟨List.replicate p.length 0, generate_sma_rising p hmono (by omega), ?_, ?_⟩
  · intro hmem
    have h := List.eq_of_mem_replicate hmem
    norm_num at h
  · intro cap b
    have hrowlen : (toPriceDF p).rows.length = p.length := by
      rw [show (toPriceDF p).rows
        = (List.range p.length).map (fun i => (Int.ofNat i, p.getD i 0)) from rfl,
        List.length_map, List.length_range]
    have hd : (toPriceDF p).rows ≠ [] := by
      intro hx
      rw [hx, hlen] at hrowlen
      simp at hrowlen
    obtain ⟨hrun, hpos, -, -⟩ := zero_signal_run (toPriceDF p)
      (toSignalDF (List.replicate p.length 0)) cap b hd rfl
      (toSignalDF_zero_rows p) rfl
    rw [hrun]
    show some (totalTrades (rawPortfolio (toPriceDF p)
      (toSignalDF (List.replicate p.length 0)) cap b).position) = some 0
    rw [hpos, hrowlen, totalTrades_replicate_zero]

/-- C5 counterexample: at the concrete strictly increasing 10-point series
1..10, running the simulator on the generated SMACrossover(2, 3) signals
and computing the Total Trades metric yields 0, refuting the claimed value
of exactly 1. -/
theorem C5_counterexample :
    (run_backtest (toPriceDF [1, 2, 3, 4, 5, 6, 7, 8, 9, 10])
        (toSignalDF ((generate_signals_sma 2 3
          [1, 2, 3, 4, 5, 6, 7, 8, 9, 10]).getD [])) 100 true).map
        (fun P => totalTrades P.position) = some 0 ∧ (0 : ℚ) ≠ 1 := by
  have hmono : ∀ i, i + 1 < ([1, 2, 3, 4, 5, 6, 7, 8, 9, 10] : List ℚ).length →
      ([1, 2, 3, 4, 5, 6, 7, 8, 9, 10] : List ℚ).getD i 0
        < ([1, 2, 3, 4, 5, 6, 7, 8, 9, 10] : List ℚ).getD (i + 1) 0 := by
    intro i hi
    simp only [List.length_cons, List.length_nil] at hi
    have hi9 : i < 9 := by omega
    interval_cases i <;> decide
  have hgen := generate_sma_rising [1, 2, 3, 4, 5, 6, 7, 8, 9, 10] hmono (by norm_num)
  rw [hgen]
  constructor
  · have hd : (toPriceDF [1, 2, 3, 4, 5, 6, 7, 8, 9, 10]).rows ≠ [] := by decide
    obtain ⟨hrun, hpos, -, -⟩ := zero_signal_run
      (toPriceDF [1, 2, 3, 4, 5, 6, 7, 8, 9, 10])
      (toSignalDF (List.replicate
        ([1, 2, 3, 4, 5, 6, 7, 8, 9, 10] : List ℚ).length 0)) 100 true hd rfl
      (toSignalDF_zero_rows [1, 2, 3, 4, 5, 6, 7, 8, 9, 10]) rfl
    rw [show ((some (List.replicate
        ([1, 2, 3, 4, 5, 6, 7, 8, 9, 10] : List ℚ).length (0 : ℚ))).getD [])
      = List.replicate ([1, 2, 3, 4, 5, 6, 7, 8, 9, 10] : List ℚ).length 0 from rfl]
    rw [hrun]
    show some (totalTrades (rawPortfolio (toPriceDF [1, 2, 3, 4, 5, 6, 7, 8, 9, 10])
      (toSignalDF (List.replicate
        ([1, 2, 3, 4, 5, 6, 7, 8, 9, 10] : List ℚ).length 0)) 100 true).position)
      = some 0
    have hrowlen : (toPriceDF [1, 2, 3, 4, 5, 6, 7, 8, 9, 10]).rows.length
        = ([1, 2, 3, 4, 5, 6, 7, 8, 9, 10] : List ℚ).length := by decide
    rw [hpos, hrowlen, totalTrades_replicate_zero]
  · norm_num

/-- Witness for the amended C5 at the concrete series 1..10. -/
theorem C5_witness :
    ∃ sigs, generate_signals_sma 2 3 [1, 2, 3, 4, 5, 6, 7, 8, 9, 10] = some sigs ∧
      (-1 : ℚ) ∉ sigs ∧
      ∀ cap b, (run_backtest (toPriceDF [1, 2, 3, 4, 5, 6, 7, 8, 9, 10])
          (toSignalDF sigs) cap b).map (fun P => totalTrades P.position) = some 0 :=
  C5_sma_rising [1, 2, 3, 4, 5, 6, 7, 8, 9, 10] (by norm_num)
    (by
      intro i hi
      simp only [List.length_cons, List.length_nil] at hi
      have hi9 : i < 9 := by omega
      interval_cases i <;> decide)

/-! ### Mean reversion strategy (`src/strategy.py` lines 48-93) and C6 -/

/-- Pandas `series > c` with NaN giving false. -/
def oGTc (z : Option ℚ) (c : ℚ) : Bool :=
  match z with
  | some x => decide (c < x)
  | none => false

/-- Pandas `series < c` with NaN giving false. -/
def oLTc (z : Option ℚ) (c : ℚ) : Bool :=
  match z with
  | some x => decide (x < c)
  | none => false

/-- The two entry overwrites of lines 73 and 76 on the 0.0-initialized
signal column, as a function of the lagged z-score: the -1 assignment of
line 76 runs last and wins on (for positive entry_z impossible) overlap. -/
def mrEntry (entry_z : ℚ) (z : Option ℚ) : ℚ :=
  if oGTc z entry_z then -1 else if oLTc z (-entry_z) then 1 else 0

/-- `Series.shift(1)` of a NaN-free column, as Option values. -/
def shiftCol (xs : List ℚ) : List (Option ℚ) :=
  match xs with
  | [] => []
  | _ :: _ => none :: xs.dropLast.map some

/-- A pandas boolean-mask overwrite `signals.loc[mask, 'signal'] = 0.0`. -/
def applyMask (mask : List Bool) (xs : List ℚ) : List ℚ :=
  List.zipWith (fun m v => if m then 0 else v) mask xs

/-- The signal column after the entry assignments (lines 73 and 76). -/
def mrEntryCol (entry_z : ℚ) (z : List (Option ℚ)) : List ℚ :=
  z.map (mrEntry entry_z)

/-- Line 85's `flatten_long_condition`, computed against the shift(1) of
the post-entry column (exits have not been applied yet at this point). -/
def mrLongExitMask (entry_z exit_z : ℚ) (z : List (Option ℚ)) : List Bool :=
  List.zipWith (fun sp zt => decide (sp = some 1) && oGTc zt (-exit_z))
    (shiftCol (mrEntryCol entry_z z)) z

/-- The signal column after line 86's long-exit overwrite. -/
def mrAfterLongExit (entry_z exit_z : ℚ) (z : List (Option ℚ)) : List ℚ :=
  applyMask (mrLongExitMask entry_z exit_z z) (mrEntryCol entry_z z)

/-- Line 89's `flatten_short_condition`, computed against the shift(1) of
the column as already mutated by line 86. -/
def mrShortExitMask (entry_z exit_z : ℚ) (z : List (Option ℚ)) : List Bool :=
  List.zipWith (fun sp zt => decide (sp = some (-1)) && oLTc zt exit_z)
    (shiftCol (mrAfterLongExit entry_z exit_z z)) z

/-- `MeanReversionStrategy.generate_signals` (lines 72-93) as a function of
the lagged z-score series `z` (the `z_score.shift(1)` of line 70; the
rolling mean/std and z-score computation upstream involves a floating
square root and is not needed by claim C6, which is about the overwrite
order of lines 72-91). -/
def mrSignals (entry_z exit_z : ℚ) (z : List (Option ℚ)) : List ℚ :=
  applyMask (mrShortExitMask entry_z exit_z z) (mrAfterLongExit entry_z exit_z z)

/-- Pointwise entry stage. -/
def mrE (entry_z : ℚ) (z : ℕ → Option ℚ) (t : ℕ) : ℚ :=
  mrEntry entry_z (z t)

/-- Pointwise long-exit stage: reads the previous day's POST-ENTRY
(pre-exit) signal. -/
def mrS2 (entry_z exit_z : ℚ) (z : ℕ → Option ℚ) (t : ℕ) : ℚ :=
  if 1 ≤ t ∧ mrE entry_z z (t - 1) = 1 ∧ oGTc (z t) (-exit_z) = true then 0
  else mrE entry_z z t

/-- Pointwise short-exit stage: reads the previous day's signal after
long-exits only (NOT the final state). -/
def mrS3 (entry_z exit_z : ℚ) (z : ℕ → Option ℚ) (t : ℕ) : ℚ :=
  if 1 ≤ t ∧ mrS2 entry_z exit_z z (t - 1) = -1 ∧ oLTc (z t) exit_z = true then 0
  else mrS2 entry_z exit_z z t

/-- Modelled from the spec: the recurrence claim C6 describes, in which
both exit tests read the previous day's FINAL realized signal value (one
overwrite pass whose exit test sees yesterday's fully-computed state).
Nothing in src computes this; it exists as the comparison point for the
refinement claim. -/
def mrSpecSig (entry_z exit_z : ℚ) (z : ℕ → Option ℚ) : ℕ → ℚ
  | 0 => mrEntry entry_z (z 0)
  | t + 1 =>
    if (mrSpecSig entry_z exit_z z t = 1 ∧ oGTc (z (t + 1)) (-exit_z) = true)
      ∨ (mrSpecSig entry_z exit_z z t = -1 ∧ oLTc (z (t + 1)) exit_z = true)
    then 0
    else mrEntry entry_z (z (t + 1))

theorem getD_map_poly {α β : Type} (f : α → β) (xs : List α) (t : ℕ)
    (da : α) (db : β) (ht : t < xs.length) :
    (xs.map f).getD t db = f (xs.getD t da) := by
  have h1 : t < (xs.map f).length := by simpa using ht
  rw [List.getD_eq_getElem _ _ h1, List.getD_eq_getElem _ _ ht, List.getElem_map]

theorem getD_zipWith_poly {α β γ : Type} (f : α → β → γ) (as : List α)
    (bs : List β) (t : ℕ) (da : α) (db : β) (dc : γ)
    (ha : t < as.length) (hb : t < bs.length) :
    (List.zipWith f as bs).getD t dc = f (as.getD t da) (bs.getD t db) := by
  have hz : t < (List.zipWith f as bs).length := by
    rw [List.length_zipWith]
    omega
  rw [List.getD_eq_getElem _ _ hz, List.getD_eq_getElem _ _ ha,
    List.getD_eq_getElem _ _ hb, List.getElem_zipWith]

theorem shiftCol_length (xs : List ℚ) : (shiftCol xs).length = xs.length := by
  cases xs with
  | nil => rfl
  | cons a l => simp [shiftCol, List.length_dropLast]

theorem getD_dropLast (xs : List ℚ) (k : ℕ) (hk : k < xs.dropLast.length) :
    xs.dropLast.getD k 0 = xs.getD k 0 := by
  have hk2 : k < xs.length := by
    rw [List.length_dropLast] at hk
    omega
  rw [List.getD_eq_getElem _ _ hk, List.getD_eq_getElem _ _ hk2,
    List.getElem_dropLast]

theorem getD_shiftCol (xs : List ℚ) (t : ℕ) (ht : t < xs.length) :
    (shiftCol xs).getD t none
      = if t = 0 then none else some (xs.getD (t - 1) 0) := by
  cases xs with
  | nil => simp at ht
  | cons a l =>
    cases t with
    | zero => rfl
    | succ k =>
      show ((none :: (a :: l).dropLast.map some).getD (k + 1) none)
        = some ((a :: l).getD k 0)
      rw [List.getD_cons_succ]
      have hk : k < (a :: l).dropLast.length := by
        rw [List.length_dropLast]
        simp only [List.length_cons] at ht ⊢
        omega
      rw [getD_map_poly some _ k 0 none hk, getD_dropLast _ k hk]

theorem mrEntryCol_length (ez : ℚ) (z : List (Option ℚ)) :
    (mrEntryCol ez z).length = z.length := by
  simp [mrEntryCol]

theorem mrAfterLongExit_length (ez xz : ℚ) (z : List (Option ℚ)) :
    (mrAfterLongExit ez xz z).length = z.length := by
  simp [mrAfterLongExit, applyMask, mrLongExitMask, List.length_zipWith,
    shiftCol_length, mrEntryCol_length]

theorem mrEntryCol_getD (ez : ℚ) (z : List (Option ℚ)) (t : ℕ)
    (ht : t < z.length) :
    (mrEntryCol ez z).getD t 0 = mrE ez (fun i => z.getD i none) t := by
  unfold mrEntryCol mrE
  rw [getD_map_poly (mrEntry ez) z t none 0 ht]

theorem mrAfterLongExit_getD (ez xz : ℚ) (z : List (Option ℚ)) (t : ℕ)
    (ht : t < z.length) :
    (mrAfterLongExit ez xz z).getD t 0
      = mrS2 ez xz (fun i => z.getD i none) t := by
  unfold mrAfterLongExit applyMask
  rw [getD_zipWith_poly _ _ _ t false 0 0
    (by rw [mrLongExitMask, List.length_zipWith, shiftCol_length,
      mrEntryCol_length]; omega)
    (by rwa [mrEntryCol_length])]
  unfold mrLongExitMask
  rw [getD_zipWith_poly _ _ _ t none none false
    (by rw [shiftCol_length, mrEntryCol_length]; exact ht) ht]
  rw [getD_shiftCol (mrEntryCol ez z) t (by rwa [mrEntryCol_length])]
  unfold mrS2
  dsimp only
  cases t with
  | zero =>
    simp
    simpa [List.getD_eq_getElem?_getD] using mrEntryCol_getD ez z 0 ht
  | succ k =>
    have hk : k < z.length := by omega
    rw [if_neg (Nat.succ_ne_zero k)]
    simp only [Nat.add_sub_cancel]
    rw [mrEntryCol_getD ez z k hk, mrEntryCol_getD ez z (k + 1) ht]
    split_ifs with hm hc hc2
    · rfl
    · exfalso
      rw [Bool.and_eq_true] at hm
      obtain ⟨hA, hB⟩ := hm
      exact hc ⟨by omega, Option.some_injective _ (of_decide_eq_true hA), hB⟩
    · exfalso
      obtain ⟨-, hA2, hB2⟩ := hc2
      apply hm
      rw [Bool.and_eq_true]
      exact ⟨decide_eq_true (congrArg some hA2), hB2⟩
    · rfl

/-- C6 amended: the mean-reversion signal assignment is a staged one-step
recurrence, with entries applied first and exits after — but the long-exit
test reads the previous day's post-entry (pre-exit) signal, and the
short-exit test reads the previous day's signal with long-exits (only)
applied; neither reads the previous day's final realized state. -/
theorem C6_mr_staged_recurrence (ez xz : ℚ) (z : List (Option ℚ)) (t : ℕ)
    (ht : t < z.length) :
    (mrSignals ez xz z).getD t 0 = mrS3 ez xz (fun i => z.getD i none) t := by
  unfold mrSignals applyMask
  rw [getD_zipWith_poly _ _ _ t false 0 0
    (by rw [mrShortExitMask, List.length_zipWith, shiftCol_length,
      mrAfterLongExit_length]; omega)
    (by rwa [mrAfterLongExit_length])]
  unfold mrShortExitMask
  rw [getD_zipWith_poly _ _ _ t none none false
    (by rw [shiftCol_length, mrAfterLongExit_length]; exact ht) ht]
  rw [getD_shiftCol (mrAfterLongExit ez xz z) t (by rwa [mrAfterLongExit_length])]
  unfold mrS3
  dsimp only
  cases t with
  | zero =>
    simp
    simpa [List.getD_eq_getElem?_getD] using mrAfterLongExit_getD ez xz z 0 ht
  | succ k =>
    have hk : k < z.length := by omega
    rw [if_neg (Nat.succ_ne_zero k)]
    simp only [Nat.add_sub_cancel]
    rw [mrAfterLongExit_getD ez xz z k hk, mrAfterLongExit_getD ez xz z (k + 1) ht]
    split_ifs with hm hc hc2
    · rfl
    · exfalso
      rw [Bool.and_eq_true] at hm
      obtain ⟨hA, hB⟩ := hm
      exact hc ⟨by omega, Option.some_injective _ (of_decide_eq_true hA), hB⟩
    · exfalso
      obtain ⟨-, hA2, hB2⟩ := hc2
      apply hm
      rw [Bool.and_eq_true]
      exact ⟨decide_eq_true (congrArg some hA2), hB2⟩
    · rfl

/-- C6 counterexample: with entry_z = 1, exit_z = 1 and lagged z-scores
[2, -2, 2], the code's signal at index 2 is 0 (the long-exit mask fires
because the previous day's POST-ENTRY signal was 1), while the recurrence
the claim describes (exits reading the previous day's FINAL signal, which
was flattened to 0 at index 1) gives the fresh short entry -1. -/
theorem C6_counterexample :
    (mrSignals 1 1 [some 2, some (-2), some 2]).getD 2 0 = 0
      ∧ mrSpecSig 1 1
          (fun i => ([some 2, some (-2), some 2] : List (Option ℚ)).getD i none) 2
        = -1
      ∧ (0 : ℚ) ≠ -1 :=
  ⟨by decide, by decide, by norm_num⟩

/-- Witness for the amended C6 at a concrete z-score series and index. -/
theorem C6_witness :
    (mrSignals 1 1 [some 2, some (-2), some 2]).getD 2 0
      = mrS3 1 1
          (fun i => ([some 2, some (-2), some 2] : List (Option ℚ)).getD i none) 2 :=
  C6_mr_staged_recurrence 1 1 [some 2, some (-2), some 2] 2 (by norm_num)

end QTB
